import Mathlib

/-!
Verification of the adaptive quiz session engine of the gpfg-quiz repository.

The repository contains two sibling quiz applications built on the same design:

* the art quiz (`src/unnamed/part_003`): paintings grouped by artist, with
  category-filtered views, inverse-frequency artist weighting, a recency
  window, 10-question rounds and distractor generation;
* the company quiz (`src/unnamed/part_004`): portfolio companies with year
  filtering, option generation over the full catalog, Fisher-Yates shuffling
  and an ELO-style rating updated per answer and mirrored to local storage.

Every definition below is a shallow embedding of a concrete function of the
source (the JavaScript file and line numbers are given next to each one).
JavaScript numbers are modelled by `ℚ`/`ℝ`/`ℤ`/`ℕ` as appropriate;
`Math.random()`-driven draws are modelled by explicit parameters (a draw in
`[0, bound)` is represented either directly or as `r % bound` for a supplied
natural number stream); JS `Set` objects are modelled as insertion-ordered
duplicate-free lists, which is exactly the iteration semantics of JS sets.
-/

namespace GpfgQuiz

/-! ## JavaScript primitives -/

/-- JS `a || b` on strings: the empty string is the only falsy string. -/
def jsOr (a b : String) : String := if a = "" then b else a

/-- JS `Set.prototype.add` on an insertion-ordered set represented as a
duplicate-free list: adding an existing element does not move it. -/
def jsSetAdd (s : List String) (a : String) : List String :=
  if a ∈ s then s else s ++ [a]

/-- JS `Math.round`: round half towards positive infinity,
`Math.round x = ⌊x + 1/2⌋`. -/
noncomputable def jsRound (x : ℝ) : ℤ := ⌊x + 1/2⌋

/-! ## Company quiz data model (part_004) -/

/-- A portfolio company as expanded by `loadData` (part_004 lines 166-174).
Only the fields read by the functions under verification are modelled.
`COUNTRY` is the fallback field of the `COUNRTY || COUNTRY` accesses. -/
structure Company where
  NAME : String
  COUNRTY : String
  COUNTRY : String
  REGION : String
  INDUSTRY : String
  YEAR : ℤ
  deriving DecidableEq, Repr

/-- `filterByYears` (part_004 lines 343-348): an empty selection means all
years, otherwise keep companies whose `YEAR` is selected. -/
def filterByYears (selectedYears : List ℤ) (data : List Company) : List Company :=
  if selectedYears.isEmpty then data
  else data.filter (fun company => selectedYears.contains company.YEAR)

/-! ## ELO rating (part_004) -/

/-- `ELO_CONFIG.initialRating` (part_004 line 7). -/
def initialRating : ℤ := 800

/-- `ELO_CONFIG.kFactor` (part_004 line 8). -/
def kFactor : ℝ := 32

/-- Expected score of `calculateEloChange` (part_004 line 67):
`1 / (1 + 10 ** (difficultyLevel - elo / 400))`. -/
noncomputable def expectedScore (elo : ℤ) (difficultyLevel : ℝ) : ℝ :=
  1 / (1 + (10 : ℝ) ^ (difficultyLevel - (elo : ℝ) / 400))

/-- `calculateEloChange` (part_004 lines 66-71); all call sites use the
default `difficultyLevel = 1`. -/
noncomputable def calculateEloChange (elo : ℤ) (isCorrect : Bool)
    (difficultyLevel : ℝ := 1) : ℤ :=
  let actualScore : ℝ := if isCorrect then 1 else 0
  jsRound (kFactor * (actualScore - expectedScore elo difficultyLevel))

/-- One `(question, elo)` point of `gameState.eloHistory`. -/
structure EloPoint where
  question : ℤ
  elo : ℤ
  deriving DecidableEq, Repr

/-- The slice of `gameState` used by the rating tracker (part_004 lines
13-38): the current rating, its history and the answered-question counter. -/
structure RatingState where
  elo : ℤ
  eloHistory : List EloPoint
  totalCount : ℤ
  deriving DecidableEq, Repr

/-- The two `localStorage` keys touched by the rating code, as typed cells:
`localStorage.getItem/setItem 'eloHistory'` and `'elo'`. `none` models an
absent key. -/
structure EloStore where
  eloHistory : Option (List EloPoint)
  elo : Option ℤ
  deriving DecidableEq, Repr

/-- `saveEloHistory` (part_004 lines 60-63): writes both keys from the game
state. -/
def saveEloHistory (g : RatingState) (st : EloStore) : EloStore :=
  { st with eloHistory := some g.eloHistory, elo := some g.elo }

/-- `loadEloHistory` (part_004 lines 41-57): reads both keys, falling back to
the initial rating and a one-point history when no rating is stored. -/
def loadEloHistory (st : EloStore) (g : RatingState) : RatingState :=
  let g₁ := match st.eloHistory with
    | some h => { g with eloHistory := h }
    | none => g
  match st.elo with
  | some e => { g₁ with elo := e }
  | none =>
      { g₁ with
        elo := initialRating
        eloHistory := [{ question := 0, elo := initialRating }] }

/-- `updateElo` (part_004 lines 74-83): applies the rating delta, appends the
new value to the in-memory history, and immediately calls `saveEloHistory`,
writing both local-storage keys. -/
noncomputable def updateElo (isCorrect : Bool) (g : RatingState) (st : EloStore) :
    RatingState × EloStore :=
  let eloChange := calculateEloChange g.elo isCorrect
  let g' : RatingState :=
    { g with
      elo := g.elo + eloChange
      eloHistory := g.eloHistory ++
        [{ question := g.totalCount, elo := g.elo + eloChange }] }
  (g', saveEloHistory g' st)

/-! ## Art quiz data model (part_003) -/

/-- A painting record as consumed by the art quiz. JS fields that may hold a
scalar, an array or `null` are normalised by `toArray` (part_003 lines
1378-1382) before use; the corresponding fields are modelled directly as
lists. Only the fields read by the verified functions are included. -/
structure Painting where
  artist : String
  url : String
  title : String
  categories : List String
  inferred_categories : List String
  artist_movement : List String
  movement : List String
  deriving DecidableEq, Repr

/-- JS `String.prototype.includes`: substring test, modelled as a
list-infix test on the characters. -/
def jsIncludes (s sub : String) : Bool := decide (sub.toList <:+: s.toList)

/-- JS `String.prototype.toLowerCase`, modelled characterwise (the same
mapping as `String.toLower`, written on the character list so that it
reduces on literals). -/
def jsToLower (s : String) : String := ⟨s.toList.map Char.toLower⟩

/-- The `impressionism` entry of `categoryFilters` (part_003 lines
1399-1412): a painting matches when any category, inferred category or
movement contains the substring `impressionism` case-insensitively. -/
def impressionismFilter (p : Painting) : Bool :=
  let hasImpressionismCategory :=
    p.categories.any (fun cat => jsIncludes (jsToLower cat) "impressionism")
  let hasInferredImpressionism :=
    p.inferred_categories.any (fun cat => jsIncludes (jsToLower cat) "impressionism")
  let hasImpressionismMovement :=
    (p.artist_movement ++ p.movement).any
      (fun m => jsIncludes (jsToLower m) "impressionism")
  hasImpressionismCategory || hasInferredImpressionism || hasImpressionismMovement

/-- `getValidPaintings` (part_003 lines 1578-1607, caching elided): filter to
paintings with a truthy `artist` and `url`, then apply the category filter
when one is registered. Of the registry only `impressionism` is needed by the
theorems below and is embedded; for a category name without a registered
filter the JS function returns the unfiltered list, which is also the
behaviour modelled for the remaining (structurally analogous) entries. -/
def getValidPaintings (selectedCategory : String) (paintings : List Painting) :
    List Painting :=
  let filtered := paintings.filter (fun p => p.artist ≠ "" && p.url ≠ "")
  if selectedCategory = "" || selectedCategory = "all" then filtered
  else if selectedCategory = "impressionism" then filtered.filter impressionismFilter
  else filtered

/-! ## Artist weighting (part_003 lines 841-872) -/

/-- The keys of the `artistCounts` object built by `initializeArtistWeights`
(part_003 lines 844-850): artists of valid paintings with a truthy name, in
first-appearance order without duplicates. -/
def artistKeys (valid : List Painting) : List String :=
  valid.foldl (fun acc p =>
    if p.artist ≠ "" && p.artist ∉ acc then acc ++ [p.artist] else acc) []

/-- `artistCounts[artist]`: the number of valid paintings by the artist. -/
def artistCount (valid : List Painting) (artist : String) : ℕ :=
  valid.countP (fun p => p.artist = artist)

/-- `Math.max(...Object.values(artistCounts))` (part_003 line 854). -/
def maxArtistCount (valid : List Painting) : ℕ :=
  ((artistKeys valid).map (artistCount valid)).foldr max 0

/-- `initializeArtistWeights` (part_003 lines 841-872), as the resulting
`artistWeights` map: for each counted artist,
`min(maxCount ** (1/3) / count ** (1/3) * (count ≤ 2 ? 1.2 : 1.0), 3.0)`.
It reads `getValidPaintings()` through the global `selectedCategory`, which
is passed explicitly here. -/
noncomputable def initializeArtistWeights (selectedCategory : String)
    (paintings : List Painting) : String → Option ℝ :=
  let valid := getValidPaintings selectedCategory paintings
  fun artist =>
    if artist ∈ artistKeys valid then
      let count := artistCount valid artist
      let baseWeight : ℝ :=
        (maxArtistCount valid : ℝ) ^ ((1 : ℝ) / 3) / (count : ℝ) ^ ((1 : ℝ) / 3)
      let smallCollectionBonus : ℝ := if count ≤ 2 then 1.2 else 1.0
      some (min (baseWeight * smallCollectionBonus) 3.0)
    else none

/-! ## Weighted selection with recency window (part_003 lines 874-912)

The selection logic is independent of the numeric field its weights live in,
so it is stated over an arbitrary linear ordered field; the running system
instantiates it with the (real-valued) `artistWeights` table, the concrete
theorems instantiate it with `ℚ` so that runs are decidable. -/

/-- Trimming of `lastSelectedArtists` after an insertion (part_003 lines
903-907): when the set has grown beyond 3 entries, keep the last 3 in
insertion order (`Array.from(set).slice(-3)`). -/
def trimRecent (s : List String) : List String :=
  if 3 < s.length then s.drop (s.length - 3) else s

/-- The cumulative-weight walk of `getWeightedRandomPainting` (part_003 lines
888-898): each painting's weight is `artistWeights.get(artist) || 1`; the
first painting whose cumulative weight reaches the draw is selected. -/
def cumulativeFind {α : Type} [LinearOrderedField α] (w : String → Option α)
    (random : α) : α → List Painting → Option Painting
  | _, [] => none
  | acc, p :: ps =>
      let acc' := acc + (w p.artist).getD 1
      if random ≤ acc' then some p else cumulativeFind w random acc' ps

/-- The body of `getWeightedRandomPainting` after the candidate pool is
fixed (part_003 lines 888-911): on a successful find the artist is added to
the recency set (which is then trimmed to its last 3 entries); the dead
fallback `return availablePaintings[0]` (unreachable for draws below the
total weight) leaves the set unchanged. -/
def selectCore {α : Type} [LinearOrderedField α] (w : String → Option α)
    (random : α) (available : List Painting) (recent : List String) :
    Option Painting × List String :=
  match cumulativeFind w random 0 available with
  | some p => (some p, trimRecent (jsSetAdd recent p.artist))
  | none => (available.head?, recent)

/-- `getWeightedRandomPainting` (part_003 lines 874-912). `random₁` is the
draw of the first entry, `random₂` the fresh draw of the retry that the JS
function performs after clearing an exhausted recency set (the recursive
call at line 885, unfolded here: with a cleared set the filter keeps every
painting and the walk runs on the full list). With zero or one candidate the
function returns `validPaintings[0]` (`none` on the empty list) without
touching the recency set. -/
def getWeightedRandomPainting {α : Type} [LinearOrderedField α]
    (w : String → Option α) (random₁ random₂ : α) (validPaintings : List Painting)
    (recent : List String) : Option Painting × List String :=
  if validPaintings.length ≤ 1 then (validPaintings.head?, recent)
  else
    let availablePaintings := validPaintings.filter (fun p => p.artist ∉ recent)
    if availablePaintings.isEmpty then selectCore w random₂ validPaintings []
    else selectCore w random₁ availablePaintings recent

/-! ## Round state machine (part_003) -/

/-- One recorded answer (part_003 lines 1681-1687). -/
structure RoundAnswer where
  question : ℕ
  correct : Bool
  selectedArtist : String
  correctArtist : String
  deriving DecidableEq, Repr

/-- `currentRound` (part_003 lines 503-509): question counter starting at 1,
the two outcome tallies, the set of featured artists and the answer log. -/
structure Round where
  questionNumber : ℕ
  correctAnswers : ℕ
  incorrectAnswers : ℕ
  artists : List String
  answers : List RoundAnswer
  deriving DecidableEq, Repr

/-- The fresh round installed at page load and by `startNewRound`
(part_003 lines 503-509 and 2791-2799). -/
def freshRound : Round :=
  { questionNumber := 1, correctAnswers := 0, incorrectAnswers := 0,
    artists := [], answers := [] }

/-- The round-completion test of `loadQuiz` (part_003 line 1617):
a round is over once `questionNumber > 10`. -/
def roundComplete (r : Round) : Prop := 10 < r.questionNumber

instance (r : Round) : Decidable (roundComplete r) :=
  inferInstanceAs (Decidable (10 < r.questionNumber))

/-- The state effect of one answer click (part_003 lines 1668-1746): record
the attempt, bump exactly one of the two tallies, add the featured artist to
the round's artist set (both branches do), and advance the question counter.
`painting` is the presented painting, `selectedArtist` the clicked option. -/
def submitAnswer (r : Round) (painting : Painting) (selectedArtist : String) :
    Round :=
  let isCorrect := selectedArtist = painting.artist
  { questionNumber := r.questionNumber + 1
    correctAnswers := r.correctAnswers + (if isCorrect then 1 else 0)
    incorrectAnswers := r.incorrectAnswers + (if isCorrect then 0 else 1)
    artists := jsSetAdd r.artists painting.artist
    answers := r.answers ++
      [{ question := r.questionNumber, correct := isCorrect,
         selectedArtist := selectedArtist, correctArtist := painting.artist }] }

/-- Folding a sequence of answer events through `submitAnswer`. -/
def runRound (r : Round) (events : List (Painting × String)) : Round :=
  events.foldl (fun acc e => submitAnswer acc e.1 e.2) r

/-! ## Art quiz option generation (part_003 lines 1766-1775) -/

/-- `[...new Set(validPaintings.map(p => p.artist))]` (part_003 line 1767):
the distinct artists of the candidate view, in first-appearance order. -/
def uniqueArtists (validPaintings : List Painting) : List String :=
  validPaintings.foldl (fun acc p =>
    if p.artist ∉ acc then acc ++ [p.artist] else acc) []

/-- The `while (set.size < 4)` loop of `generateOptions` (part_003 lines
1769-1773): starting from `{correct}`, repeatedly insert a uniformly drawn
artist until the set has 4 elements. The unbounded JS loop is modelled by a
finite list of draws; `none` means the supplied draws were exhausted before
the set reached size 4 (the JS loop would keep drawing). -/
def fillOptionSet (uniqueArtistsList : List String) :
    List ℕ → List String → Option (List String)
  | [], set => if set.length = 4 then some set else none
  | d :: ds, set =>
      if set.length = 4 then some set
      else
        let random := uniqueArtistsList.getD (d % uniqueArtistsList.length) ""
        fillOptionSet uniqueArtistsList ds (jsSetAdd set random)

/-- `generateOptions` of the art quiz (part_003 lines 1766-1775). With at
most 4 distinct artists in the view it returns all of them, shuffled;
otherwise it grows the option set from uniformly drawn artists of the view.
`shuffle` models `.sort(() => Math.random() - 0.5)`, which returns some
implementation-defined permutation; theorems about this function carry the
assumption that `shuffle` permutes its input. -/
def generateOptionsArt (correct : String) (validPaintings : List Painting)
    (draws : List ℕ) (shuffle : List String → List String) :
    Option (List String) :=
  let artists := uniqueArtists validPaintings
  if artists.length ≤ 4 then some (shuffle artists)
  else
    match fillOptionSet artists draws [correct] with
    | some set => some (shuffle set)
    | none => none

/-! ## Engine state and category switching (part_003) -/

/-- The module-level mutable state of the art quiz that the claims are about
(part_003 lines 503-530): the active category, the current round, the streak
counter, the artist weight table and the recency set. -/
structure Engine where
  selectedCategory : String
  round : Round
  streak : ℕ
  artistWeights : String → Option ℝ
  lastSelectedArtists : List String

/-- The initial engine state built by the `DOMContentLoaded` handler
(part_003 lines 3029-3060): `selectedCategory` starts as `'all'` (line 526),
`initializeArtistWeights()` runs once against that initial category, then
`startNewRound()` installs a fresh round. The weight table is never
recomputed afterwards. -/
noncomputable def initEngine (paintings : List Painting) : Engine :=
  { selectedCategory := "all"
    round := freshRound
    streak := 0
    artistWeights := initializeArtistWeights "all" paintings
    lastSelectedArtists := [] }

/-- The category-change handler (part_003 lines 980-991): store the new
category and call `startNewRound()` (lines 2791-2808), which resets the
round and the streak and reloads the quiz. Neither function touches
`artistWeights` or `lastSelectedArtists`. -/
def changeCategory (e : Engine) (newCategory : String) : Engine :=
  { e with selectedCategory := newCategory, round := freshRound, streak := 0 }

/-- The round status values of the specification's state machine. -/
inductive RoundStatus where
  | Idle
  | InProgress
  | Complete
  deriving DecidableEq, Repr

/-- Modelled from the spec: `getRoundStatus` (spec sections 4.4 and 6) is not
present in the source; the code's `currentRound` realises the spec states as
follows: `Complete` when the question counter has passed 10 (part_003 line
1617), `InProgress` when attempts have been recorded, and `Idle` for the
fresh round with no recorded attempts — the state the code is in at page
load, which is the only realisation of the spec's "no active round". -/
def getRoundStatus (r : Round) : RoundStatus :=
  if 10 < r.questionNumber then RoundStatus.Complete
  else if r.answers ≠ [] then RoundStatus.InProgress
  else RoundStatus.Idle

/-- The possible outcomes of one `loadQuiz` entry (part_003 lines
1609-1661), as far as the quiz state is concerned. -/
inductive LoadOutcome where
  | noPaintings
  | roundDone
  | notEnoughArtists
  | noPainting
  | question (p : Painting) (options : List String)

/-- The decision structure of `loadQuiz` (part_003 lines 1609-1661): an
empty filtered view takes the `noPaintings` branch and produces no question
(lines 1611-1614); a finished round shows the results (lines 1617-1620);
otherwise a painting is selected (the retry loop of lines 1623-1626 always
accepts the first selected painting, because every member of the view
already has a truthy artist and url) and options are generated, failing with
`notEnoughArtists` when fewer than 2 options exist (lines 1658-1661). -/
def loadQuizStep (validPaintings : List Painting) (r : Round)
    (w : String → Option ℚ) (random₁ random₂ : ℚ) (recent : List String)
    (draws : List ℕ) (shuffle : List String → List String) : LoadOutcome :=
  if validPaintings.isEmpty then LoadOutcome.noPaintings
  else if 10 < r.questionNumber then LoadOutcome.roundDone
  else
    match (getWeightedRandomPainting w random₁ random₂ validPaintings recent).1 with
    | none => LoadOutcome.noPainting
    | some p =>
        match generateOptionsArt p.artist validPaintings draws shuffle with
        | none => LoadOutcome.noPainting
        | some options =>
            if options.length < 2 then LoadOutcome.notEnoughArtists
            else LoadOutcome.question p options

/-! ## Company quiz option generation (part_004 lines 460-510) -/

/-- `getCorrectAnswer` (part_004 lines 460-473): the value of the question
dimension, with the `COUNRTY || COUNTRY` fallback; the `year` dimension is
stringified; an unknown type falls back to the country. -/
def getCorrectAnswer (company : Company) (type : String) : String :=
  if type = "country" then jsOr company.COUNRTY company.COUNTRY
  else if type = "industry" then company.INDUSTRY
  else if type = "region" then company.REGION
  else if type = "year" then toString company.YEAR
  else jsOr company.COUNRTY company.COUNTRY

/-- One step of the `uniqueValues.add` loop of `generateOptions` (part_004
lines 481-486): insert the company's dimension value when it is truthy,
differs from the correct answer and is not yet present. -/
def uniqueStep (type correctAnswer : String) (acc : List String)
    (company : Company) : List String :=
  let value := getCorrectAnswer company type
  if value ≠ "" && value ≠ correctAnswer && value ∉ acc then acc ++ [value]
  else acc

/-- The `uniqueValues` set of `generateOptions` (part_004 lines 480-488):
the distinct truthy dimension values over the whole catalog
(`gameState.data`), excluding the correct answer, in first-appearance
order. -/
def uniqueDimValues (data : List Company) (type : String) (correctAnswer : String) :
    List String :=
  data.foldl (uniqueStep type correctAnswer) []

/-- The same insertion without the correct-answer exclusion. -/
def distinctStep (type : String) (acc : List String) (company : Company) :
    List String :=
  let value := getCorrectAnswer company type
  if value ≠ "" && value ∉ acc then acc ++ [value] else acc

/-- The distinct truthy dimension values over the catalog (the correct
answer not excluded); used to phrase "at least 4 distinct values exist". -/
def distinctDimValues (data : List Company) (type : String) : List String :=
  data.foldl (distinctStep type) []

/-- The `while (options.length < 4 && uniqueArray.length > 0)` loop of
`generateOptions` (part_004 lines 491-497): draw a uniform index, splice the
value out of the pool, and push it unless already present. The JS draw
`Math.floor(Math.random() * len)` at step `k` is modelled by
`draws k % len`. -/
def addRandomOptions (draws : ℕ → ℕ) (k : ℕ) (options pool : List String) :
    List String :=
  if h : options.length < 4 ∧ pool ≠ [] then
    addRandomOptions draws (k + 1)
      (if pool.get ⟨draws k % pool.length,
            Nat.mod_lt _ (List.length_pos.mpr h.2)⟩ ∈ options
       then options
       else options ++ [pool.get ⟨draws k % pool.length,
            Nat.mod_lt _ (List.length_pos.mpr h.2)⟩])
      (pool.eraseIdx (draws k % pool.length))
  else options
termination_by pool.length
decreasing_by
  have h2 := List.length_eraseIdx_add_one
    (l := pool) (i := draws k % pool.length)
    (Nat.mod_lt _ (List.length_pos.mpr h.2))
  omega

/-- The Fisher-Yates swap `[shuffled[i], shuffled[j]] = [shuffled[j],
shuffled[i]]` (part_004 line 507) on a list; out-of-range indices leave the
list unchanged (they do not occur in the loop). -/
def jsSwap {α : Type} (l : List α) (i j : ℕ) : List α :=
  if hi : i < l.length then
    if hj : j < l.length then (l.set i (l.get ⟨j, hj⟩)).set j (l.get ⟨i, hi⟩)
    else l
  else l

/-- The loop of `shuffleArray` (part_004 lines 503-510): for `i` from
`length - 1` down to `1`, swap position `i` with a uniform position
`j ≤ i` (`Math.floor(Math.random() * (i + 1))`, modelled as
`draws i % (i + 1)`). -/
def shuffleLoop {α : Type} (draws : ℕ → ℕ) : List α → ℕ → List α
  | l, 0 => l
  | l, i + 1 => shuffleLoop draws (jsSwap l (i + 1) (draws (i + 1) % (i + 2))) i

/-- `shuffleArray` (part_004 lines 503-510). -/
def shuffleArray {α : Type} (draws : ℕ → ℕ) (l : List α) : List α :=
  shuffleLoop draws l (l.length - 1)

/-- `generateOptions` of the company quiz (part_004 lines 475-501): start
from the correct answer, add spliced random values from the catalog-wide
pool until 4 options exist or the pool is exhausted, then Fisher-Yates
shuffle. `draws` feeds the splice indices, `shuffleDraws` the shuffle. -/
def generateOptionsCompany (correctCompany : Company) (type : String)
    (data : List Company) (draws : ℕ → ℕ) (shuffleDraws : ℕ → ℕ) : List String :=
  let correctAnswer := getCorrectAnswer correctCompany type
  let uniqueArray := uniqueDimValues data type correctAnswer
  let options := addRandomOptions draws 0 [correctAnswer] uniqueArray
  shuffleArray shuffleDraws options

/-! ## Claim-side definition for the weighting claim

The specification asserts (section 4.2) that the weight table is derived
from the counts of the *current filtered view*. The following definition
renders that wording; it is compared against the source-derived
`initializeArtistWeights` above, which derives the table from the whole
catalog once at load time. -/

/-- Follows the spec's words (claim C2): for grouping key `k` with item
count `c(k)` *in the given filtered view*,
`weight(k) = min((maxCount / c(k)) ** (1/3) * bonus, 3.0)` with `maxCount`
the largest count among keys of that view and the ×1.2 singleton/duo bonus. -/
noncomputable def claimViewWeight (view : List Painting) (artist : String) :
    Option ℝ :=
  if artist ∈ artistKeys view then
    let count := artistCount view artist
    let bonus : ℝ := if count ≤ 2 then 1.2 else 1.0
    some (min (((maxArtistCount view : ℝ) / (count : ℝ)) ^ ((1 : ℝ) / 3) * bonus) 3.0)
  else none

/-! ## Concrete data used by witnesses and counterexamples -/

/-- A demo painting by artist A; tagged so that the impressionism filter
keeps it. -/
def pA1 : Painting :=
  { artist := "Artist A", url := "a1.jpg", title := "A one",
    categories := ["Impressionism"], inferred_categories := [],
    artist_movement := [], movement := [] }

/-- An untagged demo painting by artist A, with index `n` in the title. -/
def pAplain (n : ℕ) : Painting :=
  { artist := "Artist A", url := "a.jpg", title := toString n,
    categories := [], inferred_categories := [],
    artist_movement := [], movement := [] }

/-- A demo painting by artist B; tagged so that the impressionism filter
keeps it. -/
def pB : Painting :=
  { artist := "Artist B", url := "b.jpg", title := "B one",
    categories := ["Impressionism"], inferred_categories := [],
    artist_movement := [], movement := [] }

/-- Demo catalog: eight paintings by artist A, one by artist B. -/
def demoCatalog : List Painting :=
  [pA1, pAplain 2, pAplain 3, pAplain 4, pAplain 5, pAplain 6, pAplain 7,
   pAplain 8, pB]

/-- A demo company. -/
def demoCompany : Company :=
  { NAME := "Acme", COUNRTY := "Norway", COUNTRY := "", REGION := "Europe",
    INDUSTRY := "Energy", YEAR := 2024 }

/-! ## Helper lemmas -/

/-- Each answer advances the question counter by one and adds one to the
combined tally. -/
theorem runRound_counts (events : List (Painting × String)) :
    ∀ r : Round,
      (runRound r events).questionNumber = r.questionNumber + events.length ∧
      (runRound r events).correctAnswers + (runRound r events).incorrectAnswers
        = r.correctAnswers + r.incorrectAnswers + events.length := by
  induction events with
  | nil => intro r; simp [runRound]
  | cons e es ih =>
      intro r
      have h := ih (submitAnswer r e.1 e.2)
      simp only [runRound, List.foldl_cons] at h ⊢
      refine ⟨h.1.trans ?_, h.2.trans ?_⟩
      · simp [submitAnswer, List.length_cons]; omega
      · by_cases hc : e.2 = e.1.artist <;> simp [submitAnswer, hc] <;> omega

/-! ## C1: round termination and tally invariant -/

/-- C1: a round always terminates after exactly 10 answered questions —
after 10 `submitAnswer` events from a fresh round the state is `Complete`
(and not before), the correct and incorrect tallies sum to 10, and every
single `submitAnswer` increments exactly one of the two tallies. -/
theorem round_complete_after_ten_answers :
    ∀ events : List (Painting × String),
      (events.length = 10 →
        roundComplete (runRound freshRound events) ∧
        getRoundStatus (runRound freshRound events) = RoundStatus.Complete ∧
        (runRound freshRound events).correctAnswers
          + (runRound freshRound events).incorrectAnswers = 10) ∧
      (events.length < 10 → ¬ roundComplete (runRound freshRound events)) ∧
      (∀ (r : Round) (p : Painting) (s : String),
        ((submitAnswer r p s).correctAnswers = r.correctAnswers + 1 ∧
          (submitAnswer r p s).incorrectAnswers = r.incorrectAnswers) ∨
        ((submitAnswer r p s).correctAnswers = r.correctAnswers ∧
          (submitAnswer r p s).incorrectAnswers = r.incorrectAnswers + 1)) := by
  intro events
  obtain ⟨hq, hc⟩ := runRound_counts events freshRound
  rw [show freshRound.questionNumber = 1 from rfl] at hq
  rw [show freshRound.correctAnswers = 0 from rfl,
    show freshRound.incorrectAnswers = 0 from rfl] at hc
  refine ⟨fun h10 => ?_, fun hlt => ?_, fun r p s => ?_⟩
  · have hcomp : roundComplete (runRound freshRound events) := by
      simp only [roundComplete, hq, h10]; omega
    refine ⟨hcomp, ?_, ?_⟩
    · simp only [getRoundStatus]
      rw [if_pos]
      simpa [roundComplete] using hcomp
    · omega
  · simp only [roundComplete, hq]; omega
  · by_cases hcase : s = p.artist
    · left; simp [submitAnswer, hcase]
    · right; simp [submitAnswer, hcase]

/-- Witness for C1 at a concrete 10-event round. -/
theorem round_complete_after_ten_answers_witness :
    roundComplete (runRound freshRound (List.replicate 10 (pB, "Artist A"))) ∧
    (runRound freshRound (List.replicate 10 (pB, "Artist A"))).correctAnswers
      + (runRound freshRound (List.replicate 10 (pB, "Artist A"))).incorrectAnswers
      = 10 := by
  have h := (round_complete_after_ten_answers (List.replicate 10 (pB, "Artist A"))).1
    (by simp)
  exact ⟨h.1, h.2.2⟩

/-! ## C10: year filtering -/

/-- C10: `filterByYears` with an empty selection returns the catalog
unchanged (empty selection means all years); with a non-empty selection
every returned company's `YEAR` is in the selected set. -/
theorem filterByYears_empty_id_and_mem :
    ∀ (selectedYears : List ℤ) (data : List Company),
      (selectedYears = [] → filterByYears selectedYears data = data) ∧
      (selectedYears ≠ [] →
        ∀ c ∈ filterByYears selectedYears data, c.YEAR ∈ selectedYears) := by
  intro selectedYears data
  constructor
  · intro h; simp [filterByYears, h]
  · intro hne c hc
    have hempty : selectedYears.isEmpty = false := by
      cases selectedYears with
      | nil => exact absurd rfl hne
      | cons a l => rfl
    rw [filterByYears, hempty] at hc
    simp only [Bool.false_eq_true, if_false, List.mem_filter] at hc
    simpa using hc.2

/-- Witness for C10: the empty selection leaves a demo catalog unchanged,
and with the selection `[2024]` the returned company's year is selected. -/
theorem filterByYears_empty_id_and_mem_witness :
    filterByYears [] [demoCompany] = [demoCompany] ∧
    ∀ c ∈ filterByYears [2024] [demoCompany], c.YEAR ∈ ([2024] : List ℤ) := by
  refine ⟨(filterByYears_empty_id_and_mem [] [demoCompany]).1 rfl, ?_⟩
  exact (filterByYears_empty_id_and_mem [2024] [demoCompany]).2 (by decide)

/-! ## C3: ELO deltas at rating 800 -/

/-- At rating 800 and difficulty 1 the expected score of the source's
formula is `1 / (1 + 10^(-1)) = 10/11`. -/
theorem expectedScore_800 : expectedScore 800 1 = 10 / 11 := by
  unfold expectedScore
  rw [show (1 : ℝ) - ((800 : ℤ) : ℝ) / 400 = ((-1 : ℤ) : ℝ) by push_cast; norm_num]
  rw [Real.rpow_intCast]
  norm_num

/-- The source's delta for a correct answer at 800 is
`Math.round(32 * (1 - 10/11)) = 3`. -/
theorem calculateEloChange_800_correct : calculateEloChange 800 true = 3 := by
  unfold calculateEloChange jsRound
  rw [expectedScore_800]
  rw [show (3 : ℤ) = ⌊(75 / 22 : ℝ)⌋ by
    rw [eq_comm, Int.floor_eq_iff]; norm_num]
  norm_num [kFactor]

/-- The source's delta for an incorrect answer at 800 is
`Math.round(32 * (0 - 10/11)) = -29`. -/
theorem calculateEloChange_800_incorrect : calculateEloChange 800 false = -29 := by
  unfold calculateEloChange jsRound
  rw [expectedScore_800]
  rw [show (-29 : ℤ) = ⌊(-629 / 22 : ℝ)⌋ by
    rw [eq_comm, Int.floor_eq_iff]; norm_num]
  norm_num [kFactor]

/-- The rating state produced by `loadEloHistory` on an empty store: rating
800, one-point history. -/
def demoRating : RatingState :=
  loadEloHistory { eloHistory := none, elo := none }
    { elo := 0, eloHistory := [], totalCount := 0 }

/-- An empty demo local storage. -/
def demoStore : EloStore := { eloHistory := none, elo := none }

/-- Counterexample to C3: the code's ELO update is classic ELO with
`kFactor = 32` and expected score `1/(1 + 10^(1 - elo/400))`, not the
claimed asymmetric 50/0.75 / 20/(-0.25) rule. Starting at 800, one correct
answer yields 803 (not 838) and one incorrect answer yields 771 (not 795). -/
theorem elo_claim_counterexample :
    demoRating.elo = 800 ∧
    (updateElo true demoRating demoStore).1.elo = 803 ∧
    (updateElo false demoRating demoStore).1.elo = 771 ∧
    ((803 : ℤ) ≠ 838 ∧ (771 : ℤ) ≠ 795) := by
  refine ⟨rfl, ?_, ?_, by decide⟩
  · show demoRating.elo + calculateEloChange demoRating.elo true = 803
    rw [show demoRating.elo = 800 from rfl, calculateEloChange_800_correct]
    decide
  · show demoRating.elo + calculateEloChange demoRating.elo false = 771
    rw [show demoRating.elo = 800 from rfl, calculateEloChange_800_incorrect]
    decide


/-- C3 amended: `updateElo` adds `calculateEloChange` to the rating, and
from a rating of 800 one correct outcome yields exactly 803
(`delta = round(32 * (1 - 10/11)) = 3`) while one incorrect outcome yields
exactly 771 (`delta = round(32 * (0 - 10/11)) = -29`). -/
theorem elo_update_asymmetric_amended :
    ∀ (g : RatingState) (st : EloStore) (b : Bool),
      (updateElo b g st).1.elo = g.elo + calculateEloChange g.elo b ∧
      (g.elo = 800 →
        (updateElo true g st).1.elo = 803 ∧ (updateElo false g st).1.elo = 771) := by
  intro g st b
  refine ⟨rfl, fun h800 => ?_⟩
  constructor
  · show g.elo + calculateEloChange g.elo true = 803
    rw [h800, calculateEloChange_800_correct]
    decide
  · show g.elo + calculateEloChange g.elo false = 771
    rw [h800, calculateEloChange_800_incorrect]
    decide


/-- Witness for the amended C3 at the concrete load-time rating state. -/
theorem elo_update_asymmetric_amended_witness :
    (updateElo true demoRating demoStore).1.elo = 803 ∧
    (updateElo false demoRating demoStore).1.elo = 771 :=
  (elo_update_asymmetric_amended demoRating demoStore true).2 rfl

/-! ## C9: the engine writes local storage itself -/

/-- Counterexample to C9: recording an answer outcome does not leave
persistence to the caller — `updateElo` calls `saveEloHistory`, which
writes the `elo` and `eloHistory` local-storage keys directly. At the
load-time state the store changes from empty to holding rating 803. -/
theorem storage_delegation_counterexample :
    (updateElo true demoRating demoStore).2 ≠ demoStore ∧
    (updateElo true demoRating demoStore).2.elo = some 803 ∧
    demoStore.elo = none := by
  have helo : (updateElo true demoRating demoStore).2.elo
      = some (demoRating.elo + calculateEloChange demoRating.elo true) := rfl
  rw [show demoRating.elo = 800 from rfl, calculateEloChange_800_correct] at helo
  refine ⟨?_, helo, rfl⟩
  intro hcontra
  rw [hcontra] at helo
  exact Option.noConfusion helo

/-- C9 amended: `updateElo` updates the rating scalar and history in memory
*and* immediately persists both to the local-storage cells itself (via
`saveEloHistory`); `loadEloHistory` likewise reads those cells at startup.
Persistence is performed by the engine, not delegated to the caller. -/
theorem updateElo_writes_storage_amended :
    ∀ (g : RatingState) (st : EloStore) (b : Bool),
      (updateElo b g st).2.elo = some ((updateElo b g st).1.elo) ∧
      (updateElo b g st).2.eloHistory = some ((updateElo b g st).1.eloHistory) ∧
      loadEloHistory { eloHistory := some g.eloHistory, elo := some g.elo }
        { elo := 0, eloHistory := [], totalCount := g.totalCount }
        = { elo := g.elo, eloHistory := g.eloHistory, totalCount := g.totalCount } := by
  intro g st b
  exact ⟨rfl, rfl, rfl⟩

/-! ## C7: category switch resets the round -/

/-- C7: switching the active category mid-round discards the in-progress
round: the handler stores the new category and installs the fresh round
(question 1, zero tallies, empty attempt log), which is the `Idle`
realisation of `getRoundStatus`. -/
theorem changeCategory_resets_to_idle :
    ∀ (e : Engine) (newCategory : String),
      getRoundStatus e.round = RoundStatus.InProgress →
      (changeCategory e newCategory).round = freshRound ∧
      (changeCategory e newCategory).round.answers = [] ∧
      (changeCategory e newCategory).round.correctAnswers = 0 ∧
      (changeCategory e newCategory).round.incorrectAnswers = 0 ∧
      getRoundStatus (changeCategory e newCategory).round = RoundStatus.Idle ∧
      (changeCategory e newCategory).selectedCategory = newCategory := by
  intro e newCategory _
  exact ⟨rfl, rfl, rfl, rfl, rfl, rfl⟩

/-- A demo engine state with one answered question (an in-progress round). -/
noncomputable def demoEngineInProgress : Engine :=
  { initEngine demoCatalog with round := submitAnswer freshRound pB "Artist A" }

/-- Witness for C7 at a concrete in-progress engine state. -/
theorem changeCategory_resets_to_idle_witness :
    (changeCategory demoEngineInProgress "impressionism").round = freshRound ∧
    getRoundStatus (changeCategory demoEngineInProgress "impressionism").round
      = RoundStatus.Idle := by
  have h := changeCategory_resets_to_idle demoEngineInProgress "impressionism" rfl
  exact ⟨h.1, h.2.2.2.2.1⟩

/-! ## C8: selection on an empty view -/

/-- C8: selecting from an empty filtered view produces no item — the
selector returns no painting (JS `undefined`), and `loadQuiz` takes the
distinguished no-paintings branch instead of building a question, which is
the code's realisation of the spec's `NoCandidatesError`. -/
theorem selectNext_empty_view_fails :
    ∀ (w : String → Option ℚ) (random₁ random₂ : ℚ) (recent : List String)
      (r : Round) (draws : List ℕ) (shuffle : List String → List String),
      (getWeightedRandomPainting w random₁ random₂ ([] : List Painting) recent)
        = (none, recent) ∧
      loadQuizStep [] r w random₁ random₂ recent draws shuffle
        = LoadOutcome.noPaintings := by
  intro w random₁ random₂ recent r draws shuffle
  exact ⟨rfl, rfl⟩

/-! ## C4: the recency window -/

/-- A two-painting, two-artist view. -/
def demoView : List Painting := [pA1, pB]

/-- The weight table produced for `demoView` assigns `1.2 = 6/5` to both
artists (count 1 each, maxCount 1, singleton bonus); this is the exact
rational value, used for the decidable selection runs. -/
def demoWeight : String → Option ℚ := fun _ => some (6 / 5)

/-- First selection: draw 0 picks artist A. -/
def demoSel1 : Option Painting × List String :=
  getWeightedRandomPainting demoWeight 0 0 demoView []

/-- Second selection: artist A is excluded, so artist B is picked. -/
def demoSel2 : Option Painting × List String :=
  getWeightedRandomPainting demoWeight 0 0 demoView demoSel1.2

/-- Third selection: both artists are in the recency set, which is cleared;
the draw 3/2 then lands on artist B again. -/
def demoSel3 : Option Painting × List String :=
  getWeightedRandomPainting demoWeight (3 / 2) (3 / 2) demoView demoSel2.2

/-- The unfolded weight formula for an artist present in the counted keys. -/
theorem initializeArtistWeights_of_mem (cat : String) (ps : List Painting)
    (a : String) (h : a ∈ artistKeys (getValidPaintings cat ps)) :
    initializeArtistWeights cat ps a =
      some (min ((maxArtistCount (getValidPaintings cat ps) : ℝ) ^ ((1 : ℝ) / 3)
          / (artistCount (getValidPaintings cat ps) a : ℝ) ^ ((1 : ℝ) / 3)
          * (if artistCount (getValidPaintings cat ps) a ≤ 2 then (1.2 : ℝ) else 1.0))
        3.0) := by
  simp only [initializeArtistWeights]
  rw [if_pos h]

/-- The real weight table for `demoView`: both singleton artists get weight
`min(1^(1/3)/1^(1/3) * 1.2, 3) = 6/5`, the value used by `demoWeight`. -/
theorem demoView_weights :
    initializeArtistWeights "all" demoView "Artist A" = some ((6 / 5 : ℝ)) ∧
    initializeArtistWeights "all" demoView "Artist B" = some ((6 / 5 : ℝ)) := by
  constructor <;>
  · rw [initializeArtistWeights_of_mem _ _ _ (by decide)]
    norm_num [show artistCount (getValidPaintings "all" demoView) "Artist A" = 1
        from rfl,
      show artistCount (getValidPaintings "all" demoView) "Artist B" = 1 from rfl,
      show maxArtistCount (getValidPaintings "all" demoView) = 1 from rfl,
      Real.one_rpow]

/-- The first selection run: draw 0 on the unrestricted view picks artist A
and records it. -/
theorem demoSel1_eq : demoSel1 = (some pA1, ["Artist A"]) := by
  rw [demoSel1]
  norm_num [getWeightedRandomPainting, demoView, demoWeight, selectCore,
    cumulativeFind, trimRecent, jsSetAdd, pA1, pB]

/-- The second selection run: artist A is excluded, artist B is picked and
recorded. -/
theorem demoSel2_eq : demoSel2 = (some pB, ["Artist A", "Artist B"]) := by
  rw [demoSel2, demoSel1_eq]
  norm_num [getWeightedRandomPainting, demoView, demoWeight, selectCore,
    cumulativeFind, trimRecent, jsSetAdd, pA1, pB,
    show "Artist B" ≠ "Artist A" from by decide]

/-- The third selection run: both artists are recent, the set is cleared,
and the draw 3/2 picks artist B again. -/
theorem demoSel3_eq : demoSel3 = (some pB, ["Artist B"]) := by
  rw [demoSel3, demoSel2_eq]
  norm_num [getWeightedRandomPainting, demoView, demoWeight, selectCore,
    cumulativeFind, trimRecent, jsSetAdd, pA1, pB,
    show "Artist B" ≠ "Artist A" from by decide]

/-- Counterexample to C4: with two distinct grouping keys the claim forbids
repeating the immediately preceding key (`min(3, 2-1) = 1`), but after the
second selection both keys sit in the recency set, the third call clears it
and the draw 3/2 selects artist B — the very key selected the call before.
The weights used are exactly the ones `initializeArtistWeights` assigns to
this view. -/
theorem recency_window_claim_counterexample :
    demoSel1.1 = some pA1 ∧ demoSel2.1 = some pB ∧ demoSel3.1 = some pB ∧
    demoSel2.2 = ["Artist A", "Artist B"] ∧
    (uniqueArtists demoView).length = 2 ∧
    min 3 ((uniqueArtists demoView).length - 1) = 1 ∧
    initializeArtistWeights "all" demoView "Artist A" = some ((6 / 5 : ℝ)) ∧
    initializeArtistWeights "all" demoView "Artist B" = some ((6 / 5 : ℝ)) :=
  ⟨by rw [demoSel1_eq], by rw [demoSel2_eq], by rw [demoSel3_eq],
   by rw [demoSel2_eq], by decide, by decide,
   demoView_weights.1, demoView_weights.2⟩

/-- A successful cumulative-weight walk returns a member of the walked
list. -/
theorem cumulativeFind_mem {α : Type} [LinearOrderedField α]
    (w : String → Option α) (r : α) :
    ∀ (l : List Painting) (acc : α) (p : Painting),
      cumulativeFind w r acc l = some p → p ∈ l := by
  intro l
  induction l with
  | nil => intro acc p h; exact Option.noConfusion h
  | cons q qs ih =>
      intro acc p h
      rw [cumulativeFind] at h
      by_cases hr : r ≤ acc + (w q.artist).getD 1
      · rw [if_pos hr] at h
        cases h
        exact List.mem_cons_self q qs
      · rw [if_neg hr] at h
        exact List.mem_cons_of_mem q (ih _ p h)

/-- C4 amended: as long as the filtered candidate pool is non-empty, the
selector never returns an item whose grouping key is in the recency set at
call time; only when every candidate's key is recent is the set cleared, and
then any key — including the immediately preceding one — may be returned
(as the counterexample shows). -/
theorem selectNext_respects_window_amended :
    ∀ (w : String → Option ℚ) (r₁ r₂ : ℚ) (valid : List Painting)
      (recent : List String) (p : Painting) (rec' : List String),
      2 ≤ valid.length →
      valid.filter (fun q => q.artist ∉ recent) ≠ [] →
      getWeightedRandomPainting w r₁ r₂ valid recent = (some p, rec') →
      p.artist ∉ recent := by
  intro w r₁ r₂ valid recent p rec' hlen hne hsel
  rw [getWeightedRandomPainting] at hsel
  rw [if_neg (by omega)] at hsel
  rw [if_neg (by
    intro hempty
    exact hne (List.isEmpty_iff.mp hempty))] at hsel
  have hmem : p ∈ valid.filter (fun q => q.artist ∉ recent) := by
    rw [selectCore] at hsel
    rcases hfind : cumulativeFind w r₁ 0 (valid.filter (fun q => q.artist ∉ recent))
      with _ | q
    · rw [hfind] at hsel
      have hhead : (valid.filter (fun q => q.artist ∉ recent)).head? = some p :=
        congrArg Prod.fst hsel
      exact List.mem_of_mem_head? hhead
    · rw [hfind] at hsel
      have : q = p := by
        have := congrArg Prod.fst hsel
        simpa using this
      subst this
      exact cumulativeFind_mem w r₁ _ 0 q hfind
  have := List.of_mem_filter hmem
  simpa using this

/-- Witness for the amended C4: with artist B recent and artist A available,
the selector picks artist A, which is not in the recency set. -/
theorem selectNext_respects_window_amended_witness :
    getWeightedRandomPainting demoWeight 0 0 demoView ["Artist B"]
      = (some pA1, ["Artist B", "Artist A"]) ∧
    pA1.artist ∉ ["Artist B"] := by
  have hrun : getWeightedRandomPainting demoWeight 0 0 demoView ["Artist B"]
      = (some pA1, ["Artist B", "Artist A"]) := by
    norm_num [getWeightedRandomPainting, demoView, demoWeight, selectCore,
      cumulativeFind, trimRecent, jsSetAdd, pA1, pB,
      show "Artist A" ≠ "Artist B" from by decide]
  exact ⟨hrun,
    selectNext_respects_window_amended demoWeight 0 0 demoView ["Artist B"] pA1
      ["Artist B", "Artist A"] (by decide) (by decide) hrun⟩

/-! ## C2: the weight table -/

/-- The cube root of 8 as a real power: `8 ** (1/3) = 2`. -/
theorem rpow_third_eight : (8 : ℝ) ^ ((1 : ℝ) / 3) = 2 := by
  rw [show (8 : ℝ) = 2 ^ ((3 : ℕ) : ℝ) by rw [Real.rpow_natCast]; norm_num,
    ← Real.rpow_mul (by norm_num)]
  norm_num

/-- The unfolded claim-side weight formula for a counted artist. -/
theorem claimViewWeight_of_mem (view : List Painting) (a : String)
    (h : a ∈ artistKeys view) :
    claimViewWeight view a =
      some (min (((maxArtistCount view : ℝ) / (artistCount view a : ℝ)) ^ ((1 : ℝ) / 3)
          * (if artistCount view a ≤ 2 then (1.2 : ℝ) else 1.0)) 3.0) := by
  simp only [claimViewWeight]
  rw [if_pos h]

/-- C2 amended: the weight table is computed once, at catalog load, from the
*full* catalog (`selectedCategory = 'all'`): it follows the claimed formula
`min((maxCount / c(k)) ** (1/3) * (c(k) ≤ 2 ? 1.2 : 1), 3.0)` but with view
fixed to the load-time catalog, and switching the category (which changes
the filtered view) leaves the table unchanged — it is not recomputed. -/
theorem artistWeights_full_catalog_amended :
    ∀ (ps : List Painting) (e : Engine) (c : String),
      (initEngine ps).artistWeights = initializeArtistWeights "all" ps ∧
      initializeArtistWeights "all" ps = claimViewWeight (getValidPaintings "all" ps) ∧
      (changeCategory e c).artistWeights = e.artistWeights := by
  intro ps e c
  refine ⟨rfl, ?_, rfl⟩
  funext a
  by_cases h : a ∈ artistKeys (getValidPaintings "all" ps)
  · rw [initializeArtistWeights_of_mem "all" ps a h, claimViewWeight_of_mem _ a h]
    rw [Real.div_rpow (by positivity) (by positivity)]
  · simp only [initializeArtistWeights, claimViewWeight]
    rw [if_neg h, if_neg h]

/-- Counterexample to C2: after switching to the `impressionism` category
the filtered view is `[pA1, pB]`, in which artist B has count 1 of max
count 1, so the claimed view-local formula gives weight `1.2`; but the
engine still uses the load-time full-catalog table (counts 1 of max 8),
assigning `min(8^(1/3)/1 * 1.2, 3) = 2.4` — the table is neither derived
from the current filtered view nor recomputed when that view changes. -/
theorem weights_not_per_view_counterexample :
    (changeCategory (initEngine demoCatalog) "impressionism").selectedCategory
      = "impressionism" ∧
    (changeCategory (initEngine demoCatalog) "impressionism").artistWeights
      = (initEngine demoCatalog).artistWeights ∧
    getValidPaintings "impressionism" demoCatalog = [pA1, pB] ∧
    (initEngine demoCatalog).artistWeights "Artist B" = some ((12 / 5 : ℝ)) ∧
    claimViewWeight (getValidPaintings "impressionism" demoCatalog) "Artist B"
      = some ((6 / 5 : ℝ)) ∧
    (12 / 5 : ℝ) ≠ (6 / 5 : ℝ) := by
  refine ⟨rfl, rfl, by decide, ?_, ?_, by norm_num⟩
  · show initializeArtistWeights "all" demoCatalog "Artist B" = some ((12 / 5 : ℝ))
    rw [initializeArtistWeights_of_mem "all" demoCatalog "Artist B" (by decide)]
    rw [show artistCount (getValidPaintings "all" demoCatalog) "Artist B" = 1 from rfl,
      show maxArtistCount (getValidPaintings "all" demoCatalog) = 8 from rfl]
    rw [show ((8 : ℕ) : ℝ) = (8 : ℝ) by norm_num, rpow_third_eight]
    norm_num
  · rw [show getValidPaintings "impressionism" demoCatalog = [pA1, pB] from by decide]
    rw [claimViewWeight_of_mem [pA1, pB] "Artist B" (by decide)]
    rw [show artistCount [pA1, pB] "Artist B" = 1 from rfl,
      show maxArtistCount [pA1, pB] = 1 from rfl]
    norm_num [Real.one_rpow]

/-! ## C6: where distractor candidates come from -/

/-- A demo painting by artist C, not matching the impressionism filter. -/
def pC : Painting :=
  { artist := "Artist C", url := "c.jpg", title := "C one",
    categories := [], inferred_categories := [],
    artist_movement := [], movement := [] }

/-- Demo catalog with a third artist whose paintings the impressionism
filter excludes. -/
def catalogC6 : List Painting := demoCatalog ++ [pC]

/-- Counterexample to C6: in the art quiz the candidate pool of
`generateOptions` is `[...new Set(validPaintings.map(p => p.artist))]` — the
distinct artists of the *filtered view*, not of the full catalog. Artist C
exists in the catalog but, being excluded by the active `impressionism`
filter, is not a candidate and cannot appear among the options. -/
theorem distractor_pool_claim_counterexample :
    uniqueArtists (getValidPaintings "impressionism" catalogC6)
      = ["Artist A", "Artist B"] ∧
    "Artist C" ∈ uniqueArtists (getValidPaintings "all" catalogC6) ∧
    "Artist C" ∉ uniqueArtists (getValidPaintings "impressionism" catalogC6) ∧
    generateOptionsArt "Artist A" (getValidPaintings "impressionism" catalogC6) [] id
      = some ["Artist A", "Artist B"] := by
  refine ⟨by decide, by decide, by decide, by decide⟩

/-- Membership in a JS-set insertion. -/
theorem mem_jsSetAdd {a b : String} {s : List String} :
    a ∈ jsSetAdd s b ↔ a ∈ s ∨ a = b := by
  by_cases h : b ∈ s
  · simp only [jsSetAdd, if_pos h]
    constructor
    · exact Or.inl
    · rintro (ha | rfl)
      · exact ha
      · exact h
  · simp [jsSetAdd, if_neg h]

/-- Every element of a filled option set comes from the initial set or from
the candidate artist list. -/
theorem fillOptionSet_subset (artistsList : List String)
    (hne : artistsList ≠ []) :
    ∀ (draws : List ℕ) (set res : List String),
      fillOptionSet artistsList draws set = some res →
      ∀ a ∈ res, a ∈ set ∨ a ∈ artistsList := by
  intro draws
  induction draws with
  | nil =>
      intro set res h a ha
      rw [fillOptionSet] at h
      by_cases h4 : set.length = 4
      · rw [if_pos h4] at h
        cases h
        exact Or.inl ha
      · rw [if_neg h4] at h
        exact Option.noConfusion h
  | cons d ds ih =>
      intro set res h a ha
      rw [fillOptionSet] at h
      by_cases h4 : set.length = 4
      · rw [if_pos h4] at h
        cases h
        exact Or.inl ha
      · rw [if_neg h4] at h
        have hlen : 0 < artistsList.length := List.length_pos.mpr hne
        have hidx : d % artistsList.length < artistsList.length := Nat.mod_lt _ hlen
        rcases ih _ res h a ha with hmem | hart
        · rcases mem_jsSetAdd.mp hmem with hset | rfl
          · exact Or.inl hset
          · refine Or.inr ?_
            rw [List.getD_eq_getElem artistsList "" hidx]
            exact List.getElem_mem hidx
        · exact Or.inr hart

/-- C6 amended: in the art quiz, distractor candidates are exactly the
distinct artists of the *active filtered view* (`validPaintings`): every
returned option is an artist of the view, so a value carried only by items
excluded by the current filter can never appear. (The company quiz's
`generateOptions` draws from the full catalog instead; see the option pool
`uniqueDimValues data` used by `generateOptionsCompany`.) -/
theorem distractor_pool_from_view_amended :
    ∀ (correct : String) (view : List Painting) (draws : List ℕ)
      (shuffle : List String → List String),
      (∀ l, (shuffle l).Perm l) →
      correct ∈ uniqueArtists view →
      ∀ opts, generateOptionsArt correct view draws shuffle = some opts →
        ∀ a ∈ opts, a ∈ uniqueArtists view := by
  intro correct view draws shuffle hshuf hcor opts hgen a ha
  rw [generateOptionsArt] at hgen
  by_cases hle : (uniqueArtists view).length ≤ 4
  · rw [if_pos hle] at hgen
    cases hgen
    exact (hshuf (uniqueArtists view)).mem_iff.mp ha
  · rw [if_neg hle] at hgen
    rcases hfill : fillOptionSet (uniqueArtists view) draws [correct]
      with _ | set
    · rw [hfill] at hgen
      exact Option.noConfusion hgen
    · rw [hfill] at hgen
      cases hgen
      have hset : a ∈ set := (hshuf set).mem_iff.mp ha
      have hne : uniqueArtists view ≠ [] := by
        intro hnil
        rw [hnil] at hle
        exact hle (by simp)
      rcases fillOptionSet_subset (uniqueArtists view) hne draws [correct] set
          hfill a hset with hinit | hart
      · rw [List.mem_singleton.mp hinit]
        exact hcor
      · exact hart

/-- Witness for the amended C6: a concrete run over the filtered view
returns only artists of that view. -/
theorem distractor_pool_from_view_amended_witness :
    "Artist B" ∈ uniqueArtists (getValidPaintings "impressionism" catalogC6) :=
  distractor_pool_from_view_amended "Artist A"
    (getValidPaintings "impressionism" catalogC6) [] id
    (fun l => List.Perm.refl l) (by decide) ["Artist A", "Artist B"] (by decide)
    "Artist B" (by decide)

/-! ## C5: option generation produces 4 distinct options

First the Fisher-Yates loop is shown to permute its input. -/

/-- Replacing position `m` by `a` and consing the displaced element permutes
`a :: t`. -/
theorem perm_get_cons_set {α : Type} (t : List α) (m : ℕ) (a : α)
    (hm : m < t.length) :
    (t.get ⟨m, hm⟩ :: t.set m a).Perm (a :: t) := by
  induction t generalizing m with
  | nil => exact absurd hm (by simp)
  | cons b t ih =>
      cases m with
      | zero => simpa using List.Perm.swap a b t
      | succ k =>
          have hk : k < t.length := by simpa using hm
          have h := (List.Perm.swap b (t.get ⟨k, hk⟩) (t.set k a)).trans
            (((ih k hk).cons b).trans (List.Perm.swap a b t))
          simpa using h

/-- A two-`set` swap of positions `i` and `j` permutes the list. -/
theorem double_set_swap_perm {α : Type} :
    ∀ (l : List α) (i j : ℕ) (hi : i < l.length) (hj : j < l.length),
      ((l.set i (l.get ⟨j, hj⟩)).set j (l.get ⟨i, hi⟩)).Perm l := by
  intro l
  induction l with
  | nil => intro i j hi _; exact absurd hi (by simp)
  | cons b t ih =>
      intro i j hi hj
      cases i with
      | zero =>
          cases j with
          | zero => simp
          | succ m =>
              have hm : m < t.length := by simpa using hj
              simpa using perm_get_cons_set t m b hm
      | succ n =>
          cases j with
          | zero =>
              have hn : n < t.length := by simpa using hi
              simpa using perm_get_cons_set t n b hn
          | succ m =>
              have hn : n < t.length := by simpa using hi
              have hm : m < t.length := by simpa using hj
              simpa using (ih n m hn hm).cons b

/-- `jsSwap` permutes the list. -/
theorem jsSwap_perm {α : Type} (l : List α) (i j : ℕ) : (jsSwap l i j).Perm l := by
  unfold jsSwap
  by_cases hi : i < l.length
  · by_cases hj : j < l.length
    · rw [dif_pos hi, dif_pos hj]
      exact double_set_swap_perm l i j hi hj
    · rw [dif_pos hi, dif_neg hj]
  · rw [dif_neg hi]

/-- The Fisher-Yates loop permutes the list. -/
theorem shuffleLoop_perm {α : Type} (draws : ℕ → ℕ) :
    ∀ (i : ℕ) (l : List α), (shuffleLoop draws l i).Perm l := by
  intro i
  induction i with
  | zero => intro l; exact List.Perm.refl l
  | succ k ih =>
      intro l
      rw [shuffleLoop]
      exact (ih _).trans (jsSwap_perm l (k + 1) (draws (k + 1) % (k + 2)))

/-- `shuffleArray` permutes the list (part_004 lines 503-510). -/
theorem shuffleArray_perm {α : Type} (draws : ℕ → ℕ) (l : List α) :
    (shuffleArray draws l).Perm l :=
  shuffleLoop_perm draws (l.length - 1) l

/-! Dedup-fold facts for the option pools. -/

/-- The distinct-value fold only ever appends fresh values, so it preserves
`Nodup`. -/
theorem distinct_foldl_nodup (type : String) :
    ∀ (data : List Company) (acc : List String),
      acc.Nodup → (data.foldl (distinctStep type) acc).Nodup := by
  intro data
  induction data with
  | nil => intro acc h; exact h
  | cons c cs ih =>
      intro acc h
      rw [List.foldl_cons]
      refine ih _ ?_
      unfold distinctStep
      by_cases hcond : getCorrectAnswer c type ≠ "" ∧ getCorrectAnswer c type ∉ acc
      · rw [if_pos (by simpa using hcond)]
        simp [List.nodup_append, h, hcond.2]
      · rw [if_neg (by simpa using hcond)]
        exact h

/-- Accumulated values survive the distinct-value fold. -/
theorem distinct_foldl_mono (type : String) :
    ∀ (data : List Company) (acc : List String) (a : String),
      a ∈ acc → a ∈ data.foldl (distinctStep type) acc := by
  intro data
  induction data with
  | nil => intro acc a h; exact h
  | cons c cs ih =>
      intro acc a h
      rw [List.foldl_cons]
      refine ih _ a ?_
      unfold distinctStep
      by_cases hcond : getCorrectAnswer c type ≠ "" ∧ getCorrectAnswer c type ∉ acc
      · rw [if_pos (by simpa using hcond)]
        exact List.mem_append_left _ h
      · rw [if_neg (by simpa using hcond)]
        exact h

/-- Every truthy dimension value of a catalog company appears in the
distinct-value fold. -/
theorem distinct_foldl_complete (type : String) :
    ∀ (data : List Company) (acc : List String) (c₀ : Company),
      c₀ ∈ data → getCorrectAnswer c₀ type ≠ "" →
      getCorrectAnswer c₀ type ∈ data.foldl (distinctStep type) acc := by
  intro data
  induction data with
  | nil => intro acc c₀ h; exact absurd h (by simp)
  | cons c cs ih =>
      intro acc c₀ hmem hval
      rw [List.foldl_cons]
      rcases List.mem_cons.mp hmem with rfl | htail
      · refine distinct_foldl_mono type cs _ _ ?_
        unfold distinctStep
        by_cases hin : getCorrectAnswer c₀ type ∈ acc
        · rw [if_neg (by simpa using fun _ => hin)]
          exact hin
        · rw [if_pos (by simpa using ⟨hval, hin⟩)]
          simp
      · exact ih _ c₀ htail hval

/-- Value membership in `distinctDimValues`: every company of the catalog
with a truthy dimension value contributes it. -/
theorem mem_distinctDimValues {data : List Company} {type : String}
    {c₀ : Company} (h : c₀ ∈ data) (hv : getCorrectAnswer c₀ type ≠ "") :
    getCorrectAnswer c₀ type ∈ distinctDimValues data type :=
  distinct_foldl_complete type data [] c₀ h hv

/-- The exclusion of the correct answer commutes with the fold: the
`uniqueValues` pool is the distinct-value pool with the correct answer
filtered out. -/
theorem unique_foldl_eq_filter (type correctAnswer : String) :
    ∀ (data : List Company) (acc : List String),
      data.foldl (uniqueStep type correctAnswer)
          (acc.filter (fun v => v ≠ correctAnswer))
        = (data.foldl (distinctStep type) acc).filter
            (fun v => v ≠ correctAnswer) := by
  intro data
  induction data with
  | nil => intro acc; simp
  | cons c cs ih =>
      intro acc
      simp only [List.foldl_cons]
      have hstep :
          uniqueStep type correctAnswer (acc.filter (fun v => v ≠ correctAnswer)) c
            = (distinctStep type acc c).filter (fun v => v ≠ correctAnswer) := by
        unfold uniqueStep distinctStep
        by_cases hv0 : getCorrectAnswer c type = ""
        · rw [if_neg (by simp [hv0]), if_neg (by simp [hv0])]
        · by_cases hvc : getCorrectAnswer c type = correctAnswer
          · rw [if_neg (by simp [hvc])]
            by_cases hin : getCorrectAnswer c type ∈ acc
            · rw [if_neg (by simpa using fun _ => hin)]
            · rw [if_pos (by simpa using ⟨hv0, hin⟩)]
              simp [hvc]
          · have hmemiff : (getCorrectAnswer c type
                ∈ acc.filter (fun v => v ≠ correctAnswer))
                ↔ getCorrectAnswer c type ∈ acc := by
              simp [List.mem_filter, hvc]
            by_cases hin : getCorrectAnswer c type ∈ acc
            · rw [if_neg (by simp [hv0, hvc, hmemiff, hin]),
                if_neg (by simpa using fun _ => hin)]
            · rw [if_pos (by simp [hv0, hvc, hmemiff, hin]),
                if_pos (by simpa using ⟨hv0, hin⟩)]
              simp [List.filter_append, hvc]
      rw [hstep, ih (distinctStep type acc c)]

/-- `uniqueDimValues` is `distinctDimValues` without the correct answer. -/
theorem uniqueDimValues_eq_filter (data : List Company) (type correctAnswer : String) :
    uniqueDimValues data type correctAnswer
      = (distinctDimValues data type).filter (fun v => v ≠ correctAnswer) := by
  have h := unique_foldl_eq_filter type correctAnswer data []
  simpa [uniqueDimValues, distinctDimValues] using h

/-- On a duplicate-free list containing `c`, consing `c` back onto the
`≠ c` filtering permutes the original list, and the lengths agree. -/
theorem nodup_filter_ne_perm {c : String} :
    ∀ {l : List String}, l.Nodup → c ∈ l →
      (c :: l.filter (fun v => v ≠ c)).Perm l ∧
      (l.filter (fun v => v ≠ c)).length + 1 = l.length := by
  intro l
  induction l with
  | nil => intro _ hc; exact absurd hc (by simp)
  | cons b t ih =>
      intro hnd hc
      have hbt : b ∉ t := (List.nodup_cons.mp hnd).1
      have hnt : t.Nodup := (List.nodup_cons.mp hnd).2
      rcases List.mem_cons.mp hc with rfl | hct
      · have hfilter : t.filter (fun v => v ≠ c) = t := by
          refine List.filter_eq_self.mpr ?_
          intro x hx
          simp only [decide_eq_true_eq]
          intro hxc
          exact hbt (hxc ▸ hx)
        rw [List.filter_cons, if_neg (by simp), hfilter]
        exact ⟨List.Perm.refl _, by simp⟩
      · have hbc : b ≠ c := fun h => hbt (h ▸ hct)
        rw [List.filter_cons, if_pos (by simpa using hbc)]
        obtain ⟨hperm, hlen⟩ := ih hnt hct
        constructor
        · exact (List.Perm.swap b c _).trans (hperm.cons b)
        · simpa using hlen

/-- Full characterisation of the option-filling loop: starting from a
duplicate-free option list disjoint from a duplicate-free pool, the loop
keeps the options duplicate-free, preserves the initial options, stops at
`min 4 (options + pool)` elements when it could still grow, and consumes
the whole pool (up to permutation) when everything fits under 4. -/
theorem addRandomOptions_spec (draws : ℕ → ℕ) :
    ∀ (n : ℕ) (pool : List String) (k : ℕ) (options : List String),
      pool.length ≤ n →
      options.Nodup → pool.Nodup → (∀ a ∈ options, a ∉ pool) →
      (addRandomOptions draws k options pool).Nodup ∧
      (∀ a ∈ options, a ∈ addRandomOptions draws k options pool) ∧
      (options.length ≤ 4 →
        (addRandomOptions draws k options pool).length
          = min 4 (options.length + pool.length)) ∧
      (options.length + pool.length ≤ 4 →
        (addRandomOptions draws k options pool).Perm (options ++ pool)) := by
  intro n
  induction n with
  | zero =>
      intro pool k options hlen hno _ _
      have hpool : pool = [] := List.length_eq_zero.mp (Nat.le_zero.mp hlen)
      subst hpool
      rw [addRandomOptions, dif_neg (by simp)]
      refine ⟨hno, fun a ha => ha, ?_, ?_⟩
      · intro hle4
        simpa using (Nat.min_eq_right hle4).symm
      · intro _
        simp
  | succ m ih =>
      intro pool k options hlen hno hpno hdisj
      rw [addRandomOptions]
      by_cases hcond : options.length < 4 ∧ pool ≠ []
      · rw [dif_pos hcond]
        simp only [List.get_eq_getElem]
        have hpool0 : 0 < pool.length := List.length_pos.mpr hcond.2
        have hidx : draws k % pool.length < pool.length := Nat.mod_lt _ hpool0
        have hvpool : pool[draws k % pool.length] ∈ pool := List.getElem_mem hidx
        have hvnot : pool[draws k % pool.length] ∉ options :=
          fun hvin => hdisj _ hvin hvpool
        rw [if_neg hvnot]
        have hsplit : pool.Perm
            (pool[draws k % pool.length]
              :: pool.eraseIdx (draws k % pool.length)) := by
          refine (List.perm_cons_erase hvpool).trans ?_
          exact List.Perm.cons _ (List.erase_getElem hidx)
        have herlen := List.length_eraseIdx_add_one hidx
        have hlen' : (pool.eraseIdx (draws k % pool.length)).length ≤ m := by omega
        have hnodup' : (options ++ [pool[draws k % pool.length]]).Nodup := by
          simp [List.nodup_append, hno, hvnot]
        have hcons_nodup :
            (pool[draws k % pool.length]
              :: pool.eraseIdx (draws k % pool.length)).Nodup :=
          hsplit.nodup_iff.mp hpno
        have hpno' : (pool.eraseIdx (draws k % pool.length)).Nodup :=
          (List.nodup_cons.mp hcons_nodup).2
        have hvnotin : pool[draws k % pool.length]
            ∉ pool.eraseIdx (draws k % pool.length) :=
          (List.nodup_cons.mp hcons_nodup).1
        have hdisj' : ∀ a ∈ options ++ [pool[draws k % pool.length]],
            a ∉ pool.eraseIdx (draws k % pool.length) := by
          intro a ha hmem
          have hin_pool : a ∈ pool :=
            hsplit.mem_iff.mpr (List.mem_cons_of_mem _ hmem)
          rcases List.mem_append.mp ha with hopt | hv1
          · exact hdisj a hopt hin_pool
          · rw [List.mem_singleton.mp hv1] at hmem
            exact hvnotin hmem
        obtain ⟨ih1, ih2, ih3, ih4⟩ :=
          ih (pool.eraseIdx (draws k % pool.length)) (k + 1)
            (options ++ [pool[draws k % pool.length]])
            hlen' hnodup' hpno' hdisj'
        refine ⟨ih1, ?_, ?_, ?_⟩
        · intro a ha
          exact ih2 a (List.mem_append_left _ ha)
        · intro _
          have hle4' : (options ++ [pool[draws k % pool.length]]).length ≤ 4 := by
            simp only [List.length_append, List.length_singleton]
            omega
          rw [ih3 hle4']
          simp only [List.length_append, List.length_singleton]
          congr 1
          omega
        · intro hle4
          have h4' : (options ++ [pool[draws k % pool.length]]).length
              + (pool.eraseIdx (draws k % pool.length)).length ≤ 4 := by
            simp only [List.length_append, List.length_singleton]
            omega
          refine (ih4 h4').trans ?_
          have hassoc : (options ++ [pool[draws k % pool.length]])
              ++ pool.eraseIdx (draws k % pool.length)
              = options ++ (pool[draws k % pool.length]
                  :: pool.eraseIdx (draws k % pool.length)) := by
            simp
          rw [hassoc]
          exact hsplit.symm.append_left options
      · rw [dif_neg hcond]
        refine ⟨hno, fun a ha => ha, ?_, ?_⟩
        · intro hle4
          by_cases h4 : options.length < 4
          · have hpool : pool = [] := by
              by_contra hne
              exact hcond ⟨h4, hne⟩
            subst hpool
            simpa using (Nat.min_eq_right hle4).symm
          · have heq : options.length = 4 := by omega
            rw [heq]
            have : min 4 (4 + pool.length) = 4 := Nat.min_eq_left (by omega)
            omega
        · intro hle4
          by_cases h4 : options.length < 4
          · have hpool : pool = [] := by
              by_contra hne
              exact hcond ⟨h4, hne⟩
            subst hpool
            simp
          · have hpl : pool.length = 0 := by omega
            have hpool : pool = [] := List.length_eq_zero.mp hpl
            subst hpool
            simp

/-- C5: whenever at least 4 distinct (truthy) values exist for the question
dimension across the catalog, the company quiz's `generateOptions` returns
exactly 4 pairwise-distinct options including the correct answer; with fewer
than 4 distinct values it returns all distinct values present (the correct
answer among them), in shuffled order. -/
theorem generateOptions_four_distinct :
    ∀ (correctCompany : Company) (type : String) (data : List Company)
      (draws shuffleDraws : ℕ → ℕ),
      (4 ≤ (distinctDimValues data type).length →
        (generateOptionsCompany correctCompany type data draws shuffleDraws).length
            = 4 ∧
        (generateOptionsCompany correctCompany type data draws shuffleDraws).Nodup ∧
        getCorrectAnswer correctCompany type
          ∈ generateOptionsCompany correctCompany type data draws shuffleDraws) ∧
      ((distinctDimValues data type).length < 4 →
        getCorrectAnswer correctCompany type ∈ distinctDimValues data type →
        (generateOptionsCompany correctCompany type data draws shuffleDraws).Perm
          (distinctDimValues data type)) := by
  intro c₀ type data draws sdraws
  have hbridge := uniqueDimValues_eq_filter data type (getCorrectAnswer c₀ type)
  have hdn : (distinctDimValues data type).Nodup :=
    distinct_foldl_nodup type data [] (by simp)
  have hun : (uniqueDimValues data type (getCorrectAnswer c₀ type)).Nodup := by
    rw [hbridge]
    exact hdn.filter _
  have hcor_not : getCorrectAnswer c₀ type
      ∉ uniqueDimValues data type (getCorrectAnswer c₀ type) := by
    rw [hbridge]
    intro hmem
    have := List.of_mem_filter hmem
    simp at this
  have hdisj : ∀ a ∈ [getCorrectAnswer c₀ type],
      a ∉ uniqueDimValues data type (getCorrectAnswer c₀ type) := by
    intro a ha
    rw [List.mem_singleton.mp ha]
    exact hcor_not
  obtain ⟨hres_nodup, hres_mem, hres_len, hres_perm⟩ :=
    addRandomOptions_spec draws
      (uniqueDimValues data type (getCorrectAnswer c₀ type)).length
      (uniqueDimValues data type (getCorrectAnswer c₀ type)) 0
      [getCorrectAnswer c₀ type] le_rfl (by simp) hun hdisj
  have hshuffle := shuffleArray_perm sdraws
    (addRandomOptions draws 0 [getCorrectAnswer c₀ type]
      (uniqueDimValues data type (getCorrectAnswer c₀ type)))
  have hgen : generateOptionsCompany c₀ type data draws sdraws
      = shuffleArray sdraws
          (addRandomOptions draws 0 [getCorrectAnswer c₀ type]
            (uniqueDimValues data type (getCorrectAnswer c₀ type))) := rfl
  constructor
  · intro h4
    have hu3 : 3 ≤ (uniqueDimValues data type (getCorrectAnswer c₀ type)).length := by
      by_cases hc : getCorrectAnswer c₀ type ∈ distinctDimValues data type
      · have hl := (nodup_filter_ne_perm hdn hc).2
        rw [hbridge]
        omega
      · have hself : (distinctDimValues data type).filter
            (fun v => v ≠ getCorrectAnswer c₀ type) = distinctDimValues data type := by
          refine List.filter_eq_self.mpr ?_
          intro x hx
          simp only [decide_eq_true_eq]
          intro heq
          exact hc (heq ▸ hx)
        rw [hbridge, hself]
        omega
    refine ⟨?_, ?_, ?_⟩
    · rw [hgen, hshuffle.length_eq, hres_len (by simp)]
      simp only [List.length_singleton]
      exact Nat.min_eq_left (by omega)
    · rw [hgen]
      exact hshuffle.nodup_iff.mpr hres_nodup
    · rw [hgen]
      exact hshuffle.mem_iff.mpr (hres_mem _ (by simp))
  · intro h4 hc
    obtain ⟨hp2, hl2⟩ := nodup_filter_ne_perm hdn hc
    have hlen2 : (uniqueDimValues data type (getCorrectAnswer c₀ type)).length + 1
        = (distinctDimValues data type).length := by
      rw [hbridge]
      exact hl2
    have hresp := hres_perm (by
      simp only [List.length_singleton]
      omega)
    rw [hgen]
    refine (hshuffle.trans hresp).trans ?_
    have hsing : [getCorrectAnswer c₀ type]
          ++ uniqueDimValues data type (getCorrectAnswer c₀ type)
        = getCorrectAnswer c₀ type
          :: (distinctDimValues data type).filter
              (fun v => v ≠ getCorrectAnswer c₀ type) := by
      rw [hbridge]
      rfl
    rw [hsing]
    exact hp2

/-- A one-industry demo company used by the option-generation witness. -/
def industryCompany (i : String) : Company :=
  { NAME := i, COUNRTY := "Norway", COUNTRY := "", REGION := "Europe",
    INDUSTRY := i, YEAR := 2024 }

/-- A demo catalog with five distinct industries. -/
def industryCatalog5 : List Company :=
  [industryCompany "I1", industryCompany "I2", industryCompany "I3",
   industryCompany "I4", industryCompany "I5"]

/-- A demo catalog with only two distinct industries. -/
def industryCatalog2 : List Company :=
  [industryCompany "I1", industryCompany "I2"]

/-- Witness for C5: both branches at concrete catalogs. -/
theorem generateOptions_four_distinct_witness :
    (generateOptionsCompany (industryCompany "I1") "industry" industryCatalog5
        (fun _ => 0) (fun _ => 0)).length = 4 ∧
    (generateOptionsCompany (industryCompany "I1") "industry" industryCatalog2
        (fun _ => 0) (fun _ => 0)).Perm
      (distinctDimValues industryCatalog2 "industry") :=
  ⟨((generateOptions_four_distinct (industryCompany "I1") "industry"
      industryCatalog5 (fun _ => 0) (fun _ => 0)).1 (by decide)).1,
   (generateOptions_four_distinct (industryCompany "I1") "industry"
      industryCatalog2 (fun _ => 0) (fun _ => 0)).2 (by decide) (by decide)⟩

end GpfgQuiz
